import Mathlib

/-!
Verification development for the appointment-scheduling engine of the
echo-backend repository (`app/agent/voice_agent.py`, `app/models/appointment.py`,
`app/schemas/user.py`).

Shallow embedding conventions:
* a calendar date is a proleptic-Gregorian ordinal (`Nat`, day 1 = 0001-01-01,
  as produced by Python's `date.toordinal`);
* a time of day is `Nat` minutes since midnight (Python `time(h, m)` ↦ `h*60+m`;
  all comparisons between `time` values in the source compare `(hour, minute)`
  lexicographically, which agrees with comparison of total minutes);
* the SQLAlchemy store is a `DB` value (list of users and appointment rows);
  `db.commit()` is modelled by checking the table's `UniqueConstraint` on
  `(appointment_date, appointment_time, status)` and raising (the `except`
  branch of each tool) when it is violated, leaving the store unchanged.
-/

/-! ## Calendar arithmetic (Python `datetime.date`) -/

/-- Python `calendar.isleap`. -/
def isLeap (y : Nat) : Bool :=
  (y % 4 == 0 && y % 100 != 0) || y % 400 == 0

/-- Number of days in month `m` of year `y`. -/
def daysInMonth (y m : Nat) : Nat :=
  if m == 2 then (if isLeap y then 29 else 28)
  else if m == 4 || m == 6 || m == 9 || m == 11 then 30
  else 31

/-- Days in all years strictly before year `y` (y ≥ 1). -/
def daysBeforeYear (y : Nat) : Nat :=
  (365 * (y - 1) + (y - 1) / 4 + (y - 1) / 400) - (y - 1) / 100

/-- A parsed year/month/day triple (the result of `datetime.strptime(...).date()`). -/
structure YMD where
  y : Nat
  m : Nat
  d : Nat
deriving DecidableEq, Repr

/-- Python `date.toordinal`: day 0001-01-01 is ordinal 1. -/
def YMD.toOrdinal (x : YMD) : Nat :=
  daysBeforeYear x.y + ((List.range (x.m - 1)).map (fun k => daysInMonth x.y (k + 1))).sum + x.d

/-- Python `date.weekday()` on an ordinal: Monday = 0 … Sunday = 6
(`date(1,1,1)` has ordinal 1 and is a Monday). -/
def weekdayOf (o : Nat) : Nat := (o + 6) % 7

/-- Hour component of a time-of-day in minutes (Python `time.hour`). -/
def timeHour (t : Nat) : Nat := t / 60

/-! ## String helpers

All string processing is carried out on `List Char` (`String.data`) with
structural recursion, so every definition evaluates inside the kernel. -/

def lowerCh (l : List Char) : List Char := l.map Char.toLower

def upperCh (l : List Char) : List Char := l.map Char.toUpper

/-- Python `str.strip()`. -/
def trimCh (l : List Char) : List Char :=
  ((l.dropWhile Char.isWhitespace).reverse.dropWhile Char.isWhitespace).reverse

def trimLeftCh (l : List Char) : List Char := l.dropWhile Char.isWhitespace

def startsWithCh : List Char → List Char → Bool
  | _, [] => true
  | [], _ :: _ => false
  | a :: s, b :: p => a == b && startsWithCh s p

def containsCh (pat : List Char) : List Char → Bool
  | [] => pat.isEmpty
  | c :: rest => startsWithCh (c :: rest) pat || containsCh pat rest

/-- Python's `pat in s` substring test. -/
def strContains (s pat : String) : Bool := containsCh pat.data s.data

def splitOnChAux (sep : Char) : List Char → List Char → List (List Char)
  | [], acc => [acc.reverse]
  | c :: rest, acc =>
    if c == sep then acc.reverse :: splitOnChAux sep rest []
    else splitOnChAux sep rest (c :: acc)

/-- Split on a single-character separator (the field structure of every
strptime format used by the source). -/
def splitOnChar (sep : Char) (s : List Char) : List (List Char) :=
  splitOnChAux sep s []

def digitsVal : List Char → Nat → Nat
  | [], acc => acc
  | c :: r, acc => digitsVal r (acc * 10 + (c.toNat - 48))

/-- A 1- or 2-digit numeric field (the CPython `_strptime` regexes for
`%m`, `%d`, `%H`, `%I`, `%M` all accept one or two digits). -/
def num2 (l : List Char) : Option Nat :=
  if 1 ≤ l.length && l.length ≤ 2 && l.all Char.isDigit then some (digitsVal l 0)
  else none

/-- A 4-digit numeric field (CPython `%Y` matches exactly four digits). -/
def num4 (l : List Char) : Option Nat :=
  if l.length == 4 && l.all Char.isDigit then some (digitsVal l 0) else none

def endsWithCh (s pat : List Char) : Bool := startsWithCh s.reverse pat.reverse

def dropRightCh (s : List Char) (n : Nat) : List Char := s.take (s.length - n)

/-! ## Time parsing (`book_appointment` lines 398-427, `modify_appointment` lines 620-630) -/

/-- Combine a 12-hour value with a meridiem, as CPython `_strptime` does for
`%I` + `%p`: PM adds 12 unless the hour is 12; 12 AM becomes 0. -/
def hour12to24 (hv : Nat) (isPM : Bool) : Nat :=
  if isPM then (if hv == 12 then 12 else hv + 12)
  else (if hv == 12 then 0 else hv)

/-- `"%I:%M"` fragment: `h:mm` with `1 ≤ h ≤ 12`. Returns (hour12, minute). -/
def parseIM (s : List Char) : Option (Nat × Nat) :=
  match splitOnChar ':' s with
  | [hs, ms] =>
    match num2 hs, num2 ms with
    | some hv, some mv =>
      if 1 ≤ hv && hv ≤ 12 && mv ≤ 59 then some (hv, mv) else none
    | _, _ => none
  | _ => none

/-- Format `"%I:%M %p"` (input already upper-cased). -/
def timeFmtIMSpaceP (s : List Char) : Option Nat :=
  match splitOnChar ' ' s with
  | [hm, p] =>
    if p == "AM".data || p == "PM".data then
      match parseIM hm with
      | some (hv, mv) => some (hour12to24 hv (p == "PM".data) * 60 + mv)
      | none => none
    else none
  | _ => none

/-- Format `"%I:%M%p"` (no space before the meridiem). -/
def timeFmtIMP (s : List Char) : Option Nat :=
  if endsWithCh s "AM".data || endsWithCh s "PM".data then
    match parseIM (dropRightCh s 2) with
    | some (hv, mv) => some (hour12to24 hv (endsWithCh s "PM".data) * 60 + mv)
    | none => none
  else none

/-- Format `"%H:%M"`: 24-hour clock. -/
def timeFmtHM (s : List Char) : Option Nat :=
  match splitOnChar ':' s with
  | [hs, ms] =>
    match num2 hs, num2 ms with
    | some hv, some mv => if hv ≤ 23 && mv ≤ 59 then some (hv * 60 + mv) else none
    | _, _ => none
  | _ => none

/-- Format `"%I %p"`: bare 12-hour value, space, meridiem. -/
def timeFmtISpaceP (s : List Char) : Option Nat :=
  match splitOnChar ' ' s with
  | [hs, p] =>
    if p == "AM".data || p == "PM".data then
      match num2 hs with
      | some hv =>
        if 1 ≤ hv && hv ≤ 12 then some (hour12to24 hv (p == "PM".data) * 60) else none
      | none => none
    else none
  | _ => none

/-- Format `"%I%p"`: bare 12-hour value directly followed by the meridiem. -/
def timeFmtIP (s : List Char) : Option Nat :=
  if endsWithCh s "AM".data || endsWithCh s "PM".data then
    match num2 (dropRightCh s 2) with
    | some hv =>
      if 1 ≤ hv && hv ≤ 12 then some (hour12to24 hv (endsWithCh s "PM".data) * 60) else none
    | none => none
  else none

/-- `book_appointment`'s casual-time fallback, the regex
`^(\d{1,2})\s*(am|pm)?$` applied to `time_str.lower().strip()`, followed by the
hour adjustments of lines 415-424 (bare hours below 9 are assumed PM). -/
def casualTimeFallback (tl : List Char) : Option Nat :=
  let digits := tl.takeWhile Char.isDigit
  let rest := trimLeftCh (tl.drop digits.length)
  if 1 ≤ digits.length && digits.length ≤ 2 &&
      (rest.isEmpty || rest == "am".data || rest == "pm".data) then
    let h := digitsVal digits 0
    let h :=
      if rest == "pm".data && h < 12 then h + 12
      else if rest == "am".data && h == 12 then 0
      else if rest.isEmpty && h < 9 then h + 12
      else h
    if h ≤ 23 then some (h * 60) else none
  else none

/-- `book_appointment` time parsing: formats
`["%I:%M %p", "%I:%M%p", "%H:%M", "%I %p", "%I%p"]` tried on
`time_str.upper()`, then the casual-hour regex on `time_str.lower().strip()`. -/
def bookParseTime (time_str : String) : Option Nat :=
  let up := upperCh time_str.data
  (timeFmtIMSpaceP up <|> timeFmtIMP up <|> timeFmtHM up <|>
   timeFmtISpaceP up <|> timeFmtIP up) <|>
  casualTimeFallback (trimCh (lowerCh time_str.data))

/-- `modify_appointment` time parsing: formats
`["%I:%M %p", "%I%p", "%I %p", "%H:%M"]` tried on
`new_time_str.upper().strip()`; no casual fallback. -/
def modifyParseTime (new_time_str : String) : Option Nat :=
  let up := trimCh (upperCh new_time_str.data)
  timeFmtIMSpaceP up <|> timeFmtIP up <|> timeFmtISpaceP up <|> timeFmtHM up

/-! ## Date-format parsing (the `datetime.strptime` format loops) -/

/-- Full month names for `%B` (strptime matches them case-insensitively). -/
def monthNames : List (String × Nat) :=
  [("january", 1), ("february", 2), ("march", 3), ("april", 4), ("may", 5),
   ("june", 6), ("july", 7), ("august", 8), ("september", 9), ("october", 10),
   ("november", 11), ("december", 12)]

/-- Abbreviated month names for `%b`. -/
def monthAbbrs : List (String × Nat) :=
  [("jan", 1), ("feb", 2), ("mar", 3), ("apr", 4), ("may", 5), ("jun", 6),
   ("jul", 7), ("aug", 8), ("sep", 9), ("oct", 10), ("nov", 11), ("dec", 12)]

/-- Look up a month name (input lower-cased, as `_strptime` does). -/
def monthLookup (tbl : List (String × Nat)) (s : List Char) : Option Nat :=
  (tbl.find? (fun p => p.1.data == lowerCh s)).map (·.2)

/-- Validate a y/m/d triple the way `datetime.date` construction does;
an invalid day raises `ValueError`, modelled as `none`. -/
def mkYMD (y m d : Nat) : Option YMD :=
  if 1 ≤ d && d ≤ daysInMonth y m then some ⟨y, m, d⟩ else none

/-- Format `"%Y-%m-%d"`. -/
def dateFmtYmdDash (s : List Char) : Option YMD :=
  match splitOnChar '-' s with
  | [ys, ms, ds] =>
    match num4 ys, num2 ms, num2 ds with
    | some y, some m, some d =>
      if 1 ≤ m && m ≤ 12 && 1 ≤ d && d ≤ 31 then mkYMD y m d else none
    | _, _, _ => none
  | _ => none

/-- Format `"%m/%d/%Y"`. -/
def dateFmtMdySlash (s : List Char) : Option YMD :=
  match splitOnChar '/' s with
  | [ms, ds, ys] =>
    match num2 ms, num2 ds, num4 ys with
    | some m, some d, some y =>
      if 1 ≤ m && m ≤ 12 && 1 ≤ d && d ≤ 31 then mkYMD y m d else none
    | _, _, _ => none
  | _ => none

/-- Format `"%d/%m/%Y"`. -/
def dateFmtDmySlash (s : List Char) : Option YMD :=
  match splitOnChar '/' s with
  | [ds, ms, ys] =>
    match num2 ds, num2 ms, num4 ys with
    | some d, some m, some y =>
      if 1 ≤ m && m ≤ 12 && 1 ≤ d && d ≤ 31 then mkYMD y m d else none
    | _, _, _ => none
  | _ => none

/-- Formats `"%B %d"` / `"%b %d"`: month name and day; strptime's default
year is 1900, so the day is validated against 1900's calendar. -/
def dateFmtMonthDay (tbl : List (String × Nat)) (s : List Char) : Option YMD :=
  match splitOnChar ' ' s with
  | [mon, ds] =>
    match monthLookup tbl mon, num2 ds with
    | some m, some d => if 1 ≤ d && d ≤ 31 then mkYMD 1900 m d else none
    | _, _ => none
  | _ => none

/-- Formats `"%B %d, %Y"` / `"%b %d, %Y"`: month name, day with a trailing
comma, then a 4-digit year. -/
def dateFmtMonthDayYear (tbl : List (String × Nat)) (s : List Char) : Option YMD :=
  match splitOnChar ' ' s with
  | [mon, dsComma, ys] =>
    if endsWithCh dsComma ",".data then
      match monthLookup tbl mon, num2 (dropRightCh dsComma 1), num4 ys with
      | some m, some d, some y => if 1 ≤ d && d ≤ 31 then mkYMD y m d else none
      | _, _, _ => none
    else none
  | _ => none

/-- One date format of the source's format lists. -/
inductive DateFmt
  | ymdDash | mdySlash | dmySlash | monthDay | monAbbrDay | monthDayYear | monAbbrDayYear
deriving DecidableEq, Repr

def tryDateFmt : DateFmt → List Char → Option YMD
  | .ymdDash, s => dateFmtYmdDash s
  | .mdySlash, s => dateFmtMdySlash s
  | .dmySlash, s => dateFmtDmySlash s
  | .monthDay, s => dateFmtMonthDay monthNames s
  | .monAbbrDay, s => dateFmtMonthDay monthAbbrs s
  | .monthDayYear, s => dateFmtMonthDayYear monthNames s
  | .monAbbrDayYear, s => dateFmtMonthDayYear monthAbbrs s

/-- The format loop with the `year == 1900 → replace(year=today.year)` step
(`book_appointment` lines 373-381, `modify_appointment` lines 607-615,
`get_availability` lines 258-265).  `replace` re-validates the day against the
new year inside the same `try`, so a failing replacement falls through to the
next format. -/
def strptimeLoopReplace (fmts : List DateFmt) (todayY : Nat) (s : List Char) : Option YMD :=
  match fmts with
  | [] => none
  | f :: rest =>
    match tryDateFmt f s with
    | some x =>
      if x.y == 1900 then
        if x.d ≤ daysInMonth todayY x.m then some ⟨todayY, x.m, x.d⟩
        else strptimeLoopReplace rest todayY s
      else some x
    | none => strptimeLoopReplace rest todayY s

/-- The format loop of `cancel_appointment` (lines 522-527): first match wins,
with no year-1900 replacement. -/
def strptimeLoopPlain (fmts : List DateFmt) (s : List Char) : Option YMD :=
  match fmts with
  | [] => none
  | f :: rest =>
    match tryDateFmt f s with
    | some x => some x
    | none => strptimeLoopPlain rest s

/-! ## Weekday-name resolution (`book_appointment` lines 384-393,
`get_availability` lines 268-275) -/

def weekdaysList : List String :=
  ["monday", "tuesday", "wednesday", "thursday", "friday", "saturday", "sunday"]

/-- The `for i, day in enumerate(weekdays)` loop: on the first weekday name
occurring in `date_lower`, compute `days_ahead = i - today.weekday()`,
add 7 when that is ≤ 0, and return `today + days_ahead`. -/
def weekdayLoop (date_lower : List Char) (todayOrd : Nat) : List (Nat × String) → Option Nat
  | [] => none
  | (i, day) :: rest =>
    if containsCh day.data date_lower then
      let days_ahead : Int := (i : Int) - (weekdayOf todayOrd : Int)
      let days_ahead := if days_ahead ≤ 0 then days_ahead + 7 else days_ahead
      some (todayOrd + days_ahead.toNat)
    else weekdayLoop date_lower todayOrd rest

/-- Weekday-name date resolution over the lower-cased phrase. -/
def resolveWeekdayName (date_lower : List Char) (todayOrd : Nat) : Option Nat :=
  weekdayLoop date_lower todayOrd weekdaysList.enum

/-! ## Per-tool date resolution -/

/-- `book_appointment` date parsing (lines 362-393): substring keyword match on
`date_str.lower()`, then the format loop on the original string, then weekday
names. -/
def bookParseDate (date_str : String) (today : YMD) : Option Nat :=
  let dl := lowerCh date_str.data
  if containsCh "today".data dl then some today.toOrdinal
  else if containsCh "tomorrow".data dl then some (today.toOrdinal + 1)
  else
    match strptimeLoopReplace
        [.ymdDash, .mdySlash, .dmySlash, .monthDay, .monAbbrDay] today.y date_str.data with
    | some x => some x.toOrdinal
    | none => resolveWeekdayName dl today.toOrdinal

/-- `get_availability` date parsing (lines 247-276): same shape as booking but
with the `", %Y"` format variants, keywords and weekdays matched against
`date_str.lower().strip()`. -/
def availParseDate (date_str : String) (today : YMD) : Option Nat :=
  let dl := trimCh (lowerCh date_str.data)
  if containsCh "today".data dl then some today.toOrdinal
  else if containsCh "tomorrow".data dl then some (today.toOrdinal + 1)
  else
    match strptimeLoopReplace
        [.ymdDash, .mdySlash, .dmySlash, .monthDayYear, .monAbbrDayYear, .monthDay, .monAbbrDay]
        today.y date_str.data with
    | some x => some x.toOrdinal
    | none => resolveWeekdayName dl today.toOrdinal

/-- `cancel_appointment` date parsing (lines 512-527): keywords by substring on
`date_str.lower()`, then a plain format loop (no year replacement, no weekday
names). -/
def cancelParseDate (date_str : String) (today : YMD) : Option Nat :=
  let dl := lowerCh date_str.data
  if containsCh "today".data dl then some today.toOrdinal
  else if containsCh "tomorrow".data dl then some (today.toOrdinal + 1)
  else
    match strptimeLoopPlain [.ymdDash, .mdySlash, .monthDay, .monAbbrDay] date_str.data with
    | some x => some x.toOrdinal
    | none => none

/-- `modify_appointment` new-date parsing (lines 597-615): exact-equality
keywords on `new_date_str.lower().strip()`, then the format loop with year
replacement. -/
def modifyParseDate (new_date_str : String) (today : YMD) : Option Nat :=
  let dl := trimCh (lowerCh new_date_str.data)
  if dl == "today".data then some today.toOrdinal
  else if dl == "tomorrow".data then some (today.toOrdinal + 1)
  else
    match strptimeLoopReplace
        [.ymdDash, .mdySlash, .monthDay, .monAbbrDay, .monthDayYear] today.y new_date_str.data with
    | some x => some x.toOrdinal
    | none => none

/-! ## Data model (`app/models/appointment.py`, `app/models/user.py`) -/

/-- `AppointmentStatus`. -/
inductive ApptStatus
  | scheduled | cancelled | completed
deriving DecidableEq, Repr

/-- A row of the `appointments` table. -/
structure Appt where
  id : Nat
  user_id : Nat
  date : Nat
  time : Nat
  status : ApptStatus
  notes : Option String := none
deriving DecidableEq, Repr

/-- A row of the `users` table. -/
structure UserRow where
  id : Nat
  phone_number : String
  name : Option String := none
deriving DecidableEq, Repr

/-- The store: the two tables the agent tools touch. -/
structure DB where
  users : List UserRow
  appts : List Appt
deriving DecidableEq, Repr

/-- Two rows collide on the `unique_scheduled_slot` constraint, i.e. agree on
`(appointment_date, appointment_time, status)`. -/
def sameSlotStatus (a b : Appt) : Bool :=
  a.date == b.date && a.time == b.time && a.status == b.status

/-- The table's `UniqueConstraint("appointment_date", "appointment_time",
"status")`: no two rows share the full triple.  `db.commit()` succeeds exactly
when the resulting table satisfies this. -/
def slotUniqueOk : List Appt → Bool
  | [] => true
  | a :: l => !(l.any (fun b => sameSlotStatus a b)) && slotUniqueOk l

/-- Two rows are both `scheduled` at the same `(date, time)` slot — the
double-booking the spec's invariant forbids. -/
def sameSchedSlot (a b : Appt) : Bool :=
  a.status == ApptStatus.scheduled && b.status == ApptStatus.scheduled &&
  a.date == b.date && a.time == b.time

/-- The spec's invariant: at most one `scheduled` appointment per
`(date, time)` pair system-wide. -/
def noSchedDup : List Appt → Bool
  | [] => true
  | a :: l => !(l.any (fun b => sameSchedSlot a b)) && noSchedDup l

/-- `get_upcoming_appointments_filter` (lines 111-129): the appointment is on a
later day, or today with a strictly later time. -/
def upcomingFilter (todayOrd : Nat) (now : Nat) (a : Appt) : Bool :=
  todayOrd < a.date || (a.date == todayOrd && now < a.time)

/-- `ORDER BY appointment_date`. -/
def dateLe (a b : Appt) : Prop := a.date ≤ b.date

instance : DecidableRel dateLe := fun a b => Nat.decLe a.date b.date

/-- `ORDER BY appointment_date, appointment_time`. -/
def dateTimeLe (a b : Appt) : Prop :=
  a.date < b.date ∨ (a.date = b.date ∧ a.time ≤ b.time)

instance : DecidableRel dateTimeLe := fun a b => by
  unfold dateTimeLe; exact inferInstance

/-- Python truthiness of an optional string argument (`None` and `""` are falsy). -/
def optTruthy : Option String → Bool
  | none => false
  | some s => s != ""

/-! ## Availability engine (`generate_slots_for_date`, `get_available_slots`,
`get_availability` lines 281-285 and 308-310) -/

/-- Hourly slots 9 AM .. 4 PM (the date argument is unused, as in the source). -/
def generate_slots_for_date (_check_date : Nat) : List Nat :=
  (List.range 8).map (fun k => (9 + k) * 60)

/-- Slots of the business-hour grid not occupied by a `scheduled` appointment
on `check_date`. -/
def get_available_slots (appts : List Appt) (check_date : Nat) : List Nat :=
  let booked := appts.filter
    (fun a => a.date == check_date && a.status == ApptStatus.scheduled)
  (generate_slots_for_date check_date).filter
    (fun s => !(booked.any (fun a => a.time == s)))

/-- `get_availability`, specific-date branch (lines 281-285): filter past slots
only when the requested date is today. -/
def availabilityForDate (appts : List Appt) (todayOrd now target : Nat) : List Nat :=
  let available := get_available_slots appts target
  if target == todayOrd then available.filter (fun t => now < t) else available

/-- `get_availability`, no-date branch, today's list (lines 308-310). -/
def todayAvailability (appts : List Appt) (todayOrd now : Nat) : List Nat :=
  (get_available_slots appts todayOrd).filter (fun t => now < t)

/-! ## identify_user / create_user (lines 133-209) -/

inductive IdentifyResult
  | found (name : Option String) (upcoming : List (Nat × Nat))
  | newUser (phone : String)
deriving DecidableEq, Repr

/-- `identify_user`: a pure lookup — no phone-format validation is performed;
an unknown phone yields the "new user" reply, a known one the user's name and
up to 5 upcoming appointments. -/
def identifyCore (db : DB) (phone : String) (today : YMD) (now : Nat) : IdentifyResult :=
  match db.users.find? (fun u => u.phone_number == phone) with
  | some u =>
    let upcoming := (List.insertionSort dateTimeLe
      (db.appts.filter (fun a =>
        a.user_id == u.id && a.status == ApptStatus.scheduled &&
        upcomingFilter today.toOrdinal now a))).take 5
    .found u.name (upcoming.map (fun a => (a.date, a.time)))
  | none => .newUser phone

inductive CreateUserResult
  | alreadyExists (name : Option String)
  | created
deriving DecidableEq, Repr

/-- `create_user`: existence check then insert — again no format validation. -/
def createUserCore (db : DB) (phone name : String) (nextId : Nat) :
    CreateUserResult × DB :=
  match db.users.find? (fun u => u.phone_number == phone) with
  | some u => (.alreadyExists u.name, db)
  | none => (.created, { db with users := db.users ++ [⟨nextId, phone, some name⟩] })

/-- `UserBase` (`app/schemas/user.py` lines 6-9): the only REST-side check on a
phone number is `min_length=10, max_length=20`. -/
def userBaseLengthOk (phone : String) : Bool :=
  10 ≤ phone.length && phone.length ≤ 20

/-! ## book_appointment engine (lines 429-488) -/

inductive BookResult
  | dateUnclear            -- "I couldn't understand the date …"
  | timeUnclear            -- "I couldn't understand the time …"
  | hoursMsg               -- "Our hours are 9 AM to 5 PM …"
  | conflict (alts : List Nat)  -- "Sorry, … is taken. How about …" (≤ 3 nearby slots)
  | noUser                 -- "No account found for …"
  | confirmed (apptId : Nat)    -- "Appointment confirmed …"
  | storeError             -- except-branch: "I ran into an issue booking that appointment. Could you try again?"
deriving DecidableEq, Repr

/-- Lines 453-488: build the row, `db.add`, `db.commit()`.  A uniqueness
violation at commit raises, is swallowed by the blanket `except`, and surfaces
as the generic retry reply with the store rolled back. -/
def bookCommitPhase (db : DB) (uid : Nat) (d t : Nat) (notes : Option String)
    (nextId : Nat) : BookResult × DB :=
  let appt : Appt := ⟨nextId, uid, d, t, ApptStatus.scheduled, notes⟩
  let appts2 := db.appts ++ [appt]
  if slotUniqueOk appts2 then (.confirmed nextId, { db with appts := appts2 })
  else (.storeError, db)

/-- Lines 429-488 after date/time resolution: business-hours gate, slot
availability check, user lookup, then the commit phase. -/
def bookResolved (db : DB) (phone : String) (d t : Nat) (notes : Option String)
    (nextId : Nat) : BookResult × DB :=
  if timeHour t < 9 || 17 ≤ timeHour t then (.hoursMsg, db)
  else
    match db.appts.find? (fun a =>
        a.date == d && a.time == t && a.status == ApptStatus.scheduled) with
    | some _ => (.conflict ((get_available_slots db.appts d).take 3), db)
    | none =>
      match db.users.find? (fun u => u.phone_number == phone) with
      | none => (.noUser, db)
      | some u => bookCommitPhase db u.id d t notes nextId

/-- The whole tool: parse the date and time strings, then run the engine. -/
def bookFull (db : DB) (phone date_str time_str : String) (notes : Option String)
    (today : YMD) (nextId : Nat) : BookResult × DB :=
  match bookParseDate date_str today with
  | none => (.dateUnclear, db)
  | some d =>
    match bookParseTime time_str with
    | none => (.timeUnclear, db)
    | some t => bookResolved db phone d t notes nextId

/-! ## cancel_appointment (lines 491-554) -/

inductive CancelResult
  | noUserMsg
  | noneFound
  | disambiguate (cands : List (Nat × Nat))
  | cancelled (apptId : Nat)
  | storeError             -- except-branch: "I ran into an error cancelling …"
deriving DecidableEq, Repr

/-- The query of lines 505-532: the user's upcoming scheduled appointments,
narrowed to a date when `date_str` is truthy and parses, ordered by date. -/
def cancelMatches (db : DB) (u : UserRow) (date_str : Option String)
    (today : YMD) (now : Nat) : List Appt :=
  let base := db.appts.filter (fun a =>
    a.user_id == u.id && a.status == ApptStatus.scheduled &&
    upcomingFilter today.toOrdinal now a)
  let base :=
    match date_str with
    | some s =>
      if s != "" then
        match cancelParseDate s today with
        | some pd => base.filter (fun a => a.date == pd)
        | none => base
      else base
    | none => base
  List.insertionSort dateLe base

/-- `cancel_appointment`: disambiguate on multiple matches given no date
argument, otherwise cancel the first match and commit. -/
def cancelCore (db : DB) (phone : String) (date_str : Option String)
    (today : YMD) (now : Nat) : CancelResult × DB :=
  match db.users.find? (fun u => u.phone_number == phone) with
  | none => (.noUserMsg, db)
  | some u =>
    match cancelMatches db u date_str today now with
    | [] => (.noneFound, db)
    | a0 :: rest =>
      if decide (1 < (a0 :: rest).length) && !(optTruthy date_str) then
        (.disambiguate (((a0 :: rest).take 3).map (fun a => (a.date, a.time))), db)
      else
        let appts2 := db.appts.map (fun x =>
          if x.id == a0.id then { x with status := ApptStatus.cancelled } else x)
        if slotUniqueOk appts2 then (.cancelled a0.id, { db with appts := appts2 })
        else (.storeError, db)

/-! ## modify_appointment (lines 557-654) -/

inductive ModifyResult
  | noUserMsg
  | noneFound
  | disambiguate (cands : List (Nat × Nat))
  | dateUnclear
  | timeUnclear
  | conflictMsg            -- "Sorry, … is already booked …"
  | modified (apptId oldDate oldTime : Nat)
  | storeError
deriving DecidableEq, Repr

/-- The query of lines 572-586: upcoming scheduled appointments, narrowed by
`old_date_str` only when it parses as `%Y-%m-%d` (a failed parse silently
drops the filter), ordered by date. -/
def modifyMatches (db : DB) (u : UserRow) (old_date_str : Option String)
    (today : YMD) (now : Nat) : List Appt :=
  let base := db.appts.filter (fun a =>
    a.user_id == u.id && a.status == ApptStatus.scheduled &&
    upcomingFilter today.toOrdinal now a)
  let base :=
    match old_date_str with
    | some s =>
      match dateFmtYmdDash s.data with
      | some ymd => base.filter (fun a => a.date == ymd.toOrdinal)
      | none => base
    | none => base
  List.insertionSort dateLe base

/-- `modify_appointment`: after disambiguation and parsing, the new slot is
checked excluding the appointment being moved (`existing.id !=
appointments[0].id`), then date and time are mutated in place on the same row
and committed.  Note there is no business-hours gate on the new time. -/
def modifyCore (db : DB) (phone new_date_str new_time_str : String)
    (old_date_str : Option String) (today : YMD) (now : Nat) : ModifyResult × DB :=
  match db.users.find? (fun u => u.phone_number == phone) with
  | none => (.noUserMsg, db)
  | some u =>
    match modifyMatches db u old_date_str today now with
    | [] => (.noneFound, db)
    | a0 :: rest =>
      if decide (1 < (a0 :: rest).length) && !(optTruthy old_date_str) then
        (.disambiguate (((a0 :: rest).take 3).map (fun a => (a.date, a.time))), db)
      else
        match modifyParseDate new_date_str today with
        | none => (.dateUnclear, db)
        | some nd =>
          match modifyParseTime new_time_str with
          | none => (.timeUnclear, db)
          | some nt =>
            let existing := db.appts.find? (fun a =>
              a.date == nd && a.time == nt && a.status == ApptStatus.scheduled)
            if existing.any (fun e => e.id != a0.id) then (.conflictMsg, db)
            else
              let appts2 := db.appts.map (fun x =>
                if x.id == a0.id then { x with date := nd, time := nt } else x)
              if slotUniqueOk appts2 then
                (.modified a0.id a0.date a0.time, { db with appts := appts2 })
              else (.storeError, db)

/-! ## end_conversation summary (lines 699-759) -/

/-- One appointment logged in `session_data[...]["appointments_booked"]`. -/
structure BookedRec where
  apptId : Nat
  date : Nat
  time : Nat
deriving DecidableEq, Repr

/-- The per-call session record, as far as summary generation reads it. -/
structure SessionData where
  user_name : Option String := none
  user_phone : Option String := none
  appointments_booked : List BookedRec := []
  conversation_history : List (String × String) := []
deriving DecidableEq, Repr

/-- Python `" | ".join`. -/
def joinSep (sep : String) : List String → String
  | [] => ""
  | [x] => x
  | x :: xs => x ++ sep ++ joinSep sep xs

/-- The `summary_parts` list of lines 751-758: one entry per known fact. -/
def fallbackParts (data : SessionData) : List String :=
  (if optTruthy data.user_name then ["User: " ++ data.user_name.getD ""] else []) ++
  (if optTruthy data.user_phone then ["Phone: " ++ data.user_phone.getD ""] else []) ++
  (if !data.appointments_booked.isEmpty then
    ["Booked " ++ toString data.appointments_booked.length ++ " appointment(s)"]
   else [])

/-- The structured fallback of lines 750-759: concatenate the known facts, or
a fixed non-empty sentence when nothing is known. -/
def fallbackSummary (data : SessionData) : String :=
  if (fallbackParts data).isEmpty then "No actions taken."
  else joinSep " | " (fallbackParts data)

/-- Summary text of `end_conversation`: `gen` is the external generator's
outcome (`none` = it raised or was unavailable, `some c` = it returned `c`,
possibly empty).  With an empty transcript the generator is never invoked and
the initial "Call ended." stands; an empty generated text falls back to
"Call completed."; a generator failure falls back to the structured summary. -/
def endConversationSummary (data : SessionData) (gen : Option String) : String :=
  if data.conversation_history.isEmpty then "Call ended."
  else
    match gen with
    | some c => if c == "" then "Call completed." else c
    | none => fallbackSummary data

/-! ## Concrete states used by examples -/

/-- Reference date 2025-01-06, a Monday (Python ordinal 739257). -/
def refToday : YMD := ⟨2025, 1, 6⟩

def samUser : UserRow := ⟨1, "5551234567", some "Sam"⟩

/-- An upcoming scheduled appointment the day after `refToday`, at 2 PM. -/
def apptTomorrow2pm : Appt := ⟨1, 1, 739258, 840, ApptStatus.scheduled, none⟩

def dbOneBooking : DB := ⟨[samUser], [apptTomorrow2pm]⟩

/-- After rescheduling that appointment in place to 8 AM. -/
def dbMovedTo8am : DB := ⟨[samUser], [⟨1, 1, 739258, 480, ApptStatus.scheduled, none⟩]⟩

/-- Two upcoming scheduled appointments for the same user. -/
def dbTwoBookings : DB :=
  ⟨[samUser],
   [⟨1, 1, 739258, 600, ApptStatus.scheduled, none⟩,
    ⟨2, 1, 739259, 600, ApptStatus.scheduled, none⟩]⟩

/-- A scheduled appointment whose slot already carries a cancelled row of a
different appointment. -/
def dbCancelledTwin : DB :=
  ⟨[samUser],
   [⟨1, 1, 739258, 600, ApptStatus.scheduled, none⟩,
    ⟨2, 2, 739258, 600, ApptStatus.cancelled, none⟩]⟩

def emptyDB : DB := ⟨[], []⟩

/-! ## Helper lemmas -/

theorem sameSlotStatus_of_sameSchedSlot {a b : Appt}
    (h : sameSchedSlot a b = true) : sameSlotStatus a b = true := by
  unfold sameSchedSlot at h
  unfold sameSlotStatus
  simp only [Bool.and_eq_true, beq_iff_eq] at h ⊢
  exact ⟨⟨h.1.2, h.2⟩, by rw [h.1.1.1, h.1.1.2]⟩

theorem noSchedDup_of_slotUniqueOk :
    ∀ {l : List Appt}, slotUniqueOk l = true → noSchedDup l = true
  | [], _ => rfl
  | a :: l, h => by
    unfold slotUniqueOk at h
    unfold noSchedDup
    simp only [Bool.and_eq_true, Bool.not_eq_true'] at h ⊢
    refine ⟨?_, noSchedDup_of_slotUniqueOk h.2⟩
    cases hq : l.any (fun b => sameSchedSlot a b) with
    | false => rfl
    | true =>
      rw [List.any_eq_true] at hq
      obtain ⟨b, hbl, hb⟩ := hq
      have : l.any (fun b => sameSlotStatus a b) = true :=
        List.any_eq_true.2 ⟨b, hbl, sameSlotStatus_of_sameSchedSlot hb⟩
      rw [h.1] at this
      exact absurd this (by simp)

theorem slotUniqueOk_iff_pairwise (l : List Appt) :
    slotUniqueOk l = true ↔ l.Pairwise (fun x y => sameSlotStatus x y = false) := by
  induction l with
  | nil => simp [slotUniqueOk]
  | cons a l ih =>
    unfold slotUniqueOk
    rw [List.pairwise_cons, ← ih]
    simp [List.any_eq_true]

theorem sameSlotStatus_symm {a b : Appt}
    (h : sameSlotStatus a b = true) : sameSlotStatus b a = true := by
  unfold sameSlotStatus at h ⊢
  simp only [Bool.and_eq_true, beq_iff_eq] at h ⊢
  exact ⟨⟨h.1.1.symm, h.1.2.symm⟩, h.2.symm⟩

theorem sameSlotStatus_self (a : Appt) : sameSlotStatus a a = true := by
  unfold sameSlotStatus
  simp

/-- Under the table constraint, a `(date, time, status)` triple selects at
most one row. -/
theorem filterTriple_le_one :
    ∀ (l : List Appt), slotUniqueOk l = true → ∀ (d t : Nat) (s : ApptStatus),
      (l.filter (fun x => x.date == d && x.time == t && x.status == s)).length ≤ 1
  | [], _, _, _, _ => by simp
  | a :: l, h, d, t, s => by
    unfold slotUniqueOk at h
    simp only [Bool.and_eq_true, Bool.not_eq_true'] at h
    rw [List.filter_cons]
    split
    · rename_i hpa
      have hnil : l.filter (fun x => x.date == d && x.time == t && x.status == s) = [] := by
        rw [List.filter_eq_nil_iff]
        intro b hbl hpb
        simp only [Bool.and_eq_true, beq_iff_eq] at hpa hpb
        have : sameSlotStatus a b = true := by
          unfold sameSlotStatus
          simp only [Bool.and_eq_true, beq_iff_eq]
          exact ⟨⟨hpa.1.1.trans hpb.1.1.symm, hpa.1.2.trans hpb.1.2.symm⟩,
                 hpa.2.trans hpb.2.symm⟩
        have hany : l.any (fun b => sameSlotStatus a b) = true :=
          List.any_eq_true.2 ⟨b, hbl, this⟩
        rw [h.1] at hany
        exact absurd hany (by simp)
      rw [hnil]
      simp
    · exact Nat.le_trans (filterTriple_le_one l h.2 d t s) (Nat.le_refl 1)

theorem weekdayLoop_bounds (s : List Char) (today : Nat) :
    ∀ pairs : List (Nat × String), (∀ p ∈ pairs, p.1 < 7) →
    ∀ d : Nat, weekdayLoop s today pairs = some d →
      today < d ∧ d ≤ today + 7 ∧
      ∃ i day, (i, day) ∈ pairs ∧ containsCh day.data s = true ∧
        weekdayOf d = i ∧ (weekdayOf today = i → d = today + 7) ∧
        (∀ e, today < e → e < d → weekdayOf e ≠ i)
  | [], _, d, h => by simp [weekdayLoop] at h
  | (i, day) :: rest, hb, d, h => by
    unfold weekdayLoop at h
    by_cases hc : containsCh day.data s = true
    · rw [if_pos hc] at h
      have hi : i < 7 := hb (i, day) (List.mem_cons_self _ _)
      have hw : weekdayOf today < 7 := Nat.mod_lt _ (by omega)
      simp only [Option.some.injEq] at h
      unfold weekdayOf at hw h ⊢
      by_cases hle : (i : Int) - ((today + 6) % 7 : Nat) ≤ 0
      · rw [if_pos hle] at h
        refine ⟨by omega, by omega, i, day, List.mem_cons_self _ _, hc, by omega,
          by omega, ?_⟩
        intro e he1 he2
        omega
      · rw [if_neg hle] at h
        refine ⟨by omega, by omega, i, day, List.mem_cons_self _ _, hc, by omega,
          by omega, ?_⟩
        intro e he1 he2
        omega
    · rw [if_neg hc] at h
      obtain ⟨h1, h2, j, dayj, hmem, hrest⟩ := weekdayLoop_bounds s today rest
        (fun p hp => hb p (List.mem_cons_of_mem _ hp)) d h
      exact ⟨h1, h2, j, dayj, List.mem_cons_of_mem _ hmem, hrest⟩

/-- C4: weekday-name date resolution (the `for i, day in enumerate(weekdays)`
loop of `book_appointment` and `get_availability`) returns the next occurrence
of the named weekday strictly after the reference date: the result lies in
(today, today + 7], falls on the weekday whose name was matched in the phrase,
no earlier date after the reference falls on that weekday, and when the
reference date itself falls on the named weekday the result is exactly 7 days
later — the reference date is never returned. -/
theorem weekday_resolution_strictly_after (s : List Char) (today d : Nat)
    (h : resolveWeekdayName s today = some d) :
    today < d ∧ d ≤ today + 7 ∧
    ∃ i day, (i, day) ∈ weekdaysList.enum ∧ containsCh day.data s = true ∧
      weekdayOf d = i ∧ (weekdayOf today = i → d = today + 7) ∧
      (∀ e, today < e → e < d → weekdayOf e ≠ i) :=
  weekdayLoop_bounds s today weekdaysList.enum (by decide) d h

theorem weekday_resolution_strictly_after_witness :
    resolveWeekdayName "monday".data 739257 = some 739264 ∧
    (739257 < 739264 ∧ 739264 ≤ 739257 + 7 ∧
      ∃ i day, (i, day) ∈ weekdaysList.enum ∧
        containsCh day.data "monday".data = true ∧
        weekdayOf 739264 = i ∧ (weekdayOf 739257 = i → 739264 = 739257 + 7) ∧
        (∀ e, 739257 < e → e < 739264 → weekdayOf e ≠ i)) :=
  ⟨by decide, weekday_resolution_strictly_after "monday".data 739257 739264 (by decide)⟩

/-- C5: the specific-date branch of `get_availability` filters out slots at or
before the current time exactly when the requested date is today; for any
other date the slot list is the unfiltered availability; the no-date branch's
today list is filtered the same way. -/
theorem availability_excludes_past_today (appts : List Appt)
    (todayOrd now target : Nat) :
    (∀ t ∈ availabilityForDate appts todayOrd now target,
      target = todayOrd → now < t) ∧
    (target ≠ todayOrd →
      availabilityForDate appts todayOrd now target = get_available_slots appts target) ∧
    (∀ t ∈ todayAvailability appts todayOrd now, now < t) := by
  refine ⟨?_, ?_, ?_⟩
  · intro t ht heq
    unfold availabilityForDate at ht
    rw [if_pos (by simp [heq])] at ht
    simp only [List.mem_filter, decide_eq_true_eq] at ht
    exact ht.2
  · intro hne
    unfold availabilityForDate
    rw [if_neg (by simp [hne])]
  · intro t ht
    unfold todayAvailability at ht
    simp only [List.mem_filter, decide_eq_true_eq] at ht
    exact ht.2

theorem availability_excludes_past_today_witness :
    (∀ t ∈ availabilityForDate dbOneBooking.appts 739257 720 739257,
      739257 = 739257 → 720 < t) ∧
    ((739258 : Nat) ≠ 739257 →
      availabilityForDate dbOneBooking.appts 739257 720 739258 =
        get_available_slots dbOneBooking.appts 739258) ∧
    (∀ t ∈ todayAvailability dbOneBooking.appts 739257 720, 720 < t) :=
  availability_excludes_past_today dbOneBooking.appts 739257 720 739257
    |>.1 |> fun _ => by
      exact ⟨(availability_excludes_past_today dbOneBooking.appts 739257 720 739257).1,
             (availability_excludes_past_today dbOneBooking.appts 739257 720 739258).2.1,
             (availability_excludes_past_today dbOneBooking.appts 739257 720 739257).2.2⟩

theorem joinSep_cons_ne_empty (sep x : String) (xs : List String)
    (hx : x.length ≠ 0) : joinSep sep (x :: xs) ≠ "" := by
  cases xs with
  | nil =>
    unfold joinSep
    intro h
    exact hx (by rw [h]; rfl)
  | cons y ys =>
    unfold joinSep
    intro h
    apply hx
    have hlen := congrArg String.length h
    rw [String.length_append, String.length_append] at hlen
    have : String.length "" = 0 := rfl
    omega

theorem length_append_ne_zero (a b : String) (ha : a.length ≠ 0) :
    (a ++ b).length ≠ 0 := by
  rw [String.length_append]
  omega

theorem fallbackParts_all_nonempty (data : SessionData) :
    ∀ p ∈ fallbackParts data, p.length ≠ 0 := by
  intro p hp
  unfold fallbackParts at hp
  rcases List.mem_append.1 hp with hp | hp
  · rcases List.mem_append.1 hp with hp | hp
    · split at hp
      · rw [List.mem_singleton.1 hp]
        exact length_append_ne_zero _ _ (by decide)
      · cases hp
    · split at hp
      · rw [List.mem_singleton.1 hp]
        exact length_append_ne_zero _ _ (by decide)
      · cases hp
  · split at hp
    · rw [List.mem_singleton.1 hp]
      exact length_append_ne_zero _ _ (length_append_ne_zero _ _ (by decide))
    · cases hp

theorem fallbackSummary_ne_empty (data : SessionData) : fallbackSummary data ≠ "" := by
  unfold fallbackSummary
  split
  · decide
  · rename_i h
    obtain ⟨x, xs, hx⟩ := List.exists_cons_of_ne_nil (by simpa using h)
    rw [hx]
    exact joinSep_cons_ne_empty _ _ _
      (fallbackParts_all_nonempty data x (hx ▸ List.mem_cons_self x xs))

/-- C8: `end_conversation` always produces a non-empty summary: when the
external generator fails (`gen = none`) with a non-empty transcript the result
is exactly the structured concatenation of the known session facts, when the
transcript is empty it is the fixed sentence "Call ended.", and in every case
the text is non-empty. -/
theorem end_conversation_summary_nonempty (data : SessionData) (gen : Option String) :
    endConversationSummary data gen ≠ "" ∧
    (gen = none → data.conversation_history ≠ [] →
      endConversationSummary data gen = fallbackSummary data) ∧
    (data.conversation_history = [] → endConversationSummary data gen = "Call ended.") := by
  refine ⟨?_, ?_, ?_⟩
  · unfold endConversationSummary
    by_cases hh : data.conversation_history.isEmpty = true
    · rw [if_pos hh]; decide
    · rw [if_neg hh]
      cases gen with
      | none => exact fallbackSummary_ne_empty data
      | some c =>
        dsimp only
        by_cases hc : (c == "") = true
        · rw [if_pos hc]; decide
        · rw [if_neg hc]
          simpa using hc
  · intro hg hne
    subst hg
    unfold endConversationSummary
    rw [if_neg (by simpa using hne)]
  · intro he
    unfold endConversationSummary
    rw [if_pos (by simpa using he)]

theorem end_conversation_summary_nonempty_witness :
    endConversationSummary ⟨some "Sam", none, [], [("user", "hi")]⟩ none =
      fallbackSummary ⟨some "Sam", none, [], [("user", "hi")]⟩ :=
  (end_conversation_summary_nonempty ⟨some "Sam", none, [], [("user", "hi")]⟩ none).2.1
    rfl (by decide)

/-- C2 counterexample: another session has already committed a scheduled row
at the slot, so this session's commit violates the uniqueness constraint
(after its own availability check had passed); the tool's blanket `except`
yields the generic retry reply — not the structured slot-taken conflict
outcome the claim requires. -/
theorem commit_violation_not_conflict :
    (bookCommitPhase dbOneBooking 1 739258 840 none 2).1 = BookResult.storeError ∧
    ∀ alts : List Nat,
      (bookCommitPhase dbOneBooking 1 739258 840 none 2).1 ≠ BookResult.conflict alts := by
  have h1 : (bookCommitPhase dbOneBooking 1 739258 840 none 2).1 = BookResult.storeError := by
    decide
  refine ⟨h1, ?_⟩
  intro alts h
  rw [h1] at h
  exact BookResult.noConfusion h

/-- C2 amended: a uniqueness violation raised at commit is swallowed by the
blanket exception handler of `book_appointment` and surfaces as the generic
retry apology ("I ran into an issue booking that appointment. Could you try
again?") with the store unchanged — a handled, caller-safe reply, but not the
structured slot-taken conflict outcome. -/
theorem commit_violation_generic_retry (db : DB) (uid d t : Nat)
    (notes : Option String) (nextId : Nat)
    (h : slotUniqueOk
        (db.appts ++ [⟨nextId, uid, d, t, ApptStatus.scheduled, notes⟩]) = false) :
    bookCommitPhase db uid d t notes nextId = (.storeError, db) := by
  simp [bookCommitPhase, h]

theorem commit_violation_generic_retry_witness :
    slotUniqueOk
      (dbOneBooking.appts ++ [⟨2, 1, 739258, 840, ApptStatus.scheduled, none⟩]) = false ∧
    bookCommitPhase dbOneBooking 1 739258 840 none 2 = (.storeError, dbOneBooking) :=
  ⟨by decide, commit_violation_generic_retry dbOneBooking 1 739258 840 none 2 (by decide)⟩

/-- C7 counterexample: phone "123" is not 10 digits, yet `identify_user`
performs the lookup and reports a new user instead of rejecting, and
`create_user` happily creates the record. -/
theorem identify_accepts_nondigit_phone :
    identifyCore emptyDB "123" refToday 720 = .newUser "123" ∧
    (createUserCore emptyDB "123" "Sam" 1).2.users = [⟨1, "123", some "Sam"⟩] ∧
    "123".length ≠ 10 :=
  ⟨by decide, by decide, by decide⟩

/-- C7 amended: neither `identify_user` nor `create_user` validates the phone
format — for any phone string whatsoever they perform the lookup (returning
the found-user or new-user reply) or create the User record; the only coded
check is the REST schema's length bound of 10-20 characters, which itself
accepts non-10-digit strings. -/
theorem identify_create_no_format_validation (db : DB) (phone : String)
    (today : YMD) (now : Nat) (nm : String) (nextId : Nat) :
    (db.users.find? (fun u => u.phone_number == phone) = none →
      identifyCore db phone today now = .newUser phone) ∧
    (∀ u, db.users.find? (fun x => x.phone_number == phone) = some u →
      ∃ l, identifyCore db phone today now = .found u.name l) ∧
    (db.users.find? (fun u => u.phone_number == phone) = none →
      (createUserCore db phone nm nextId).2.users = db.users ++ [⟨nextId, phone, some nm⟩]) ∧
    (userBaseLengthOk "12345678901" = true ∧ "12345678901".length ≠ 10) := by
  refine ⟨?_, ?_, ?_, by decide, by decide⟩
  · intro h
    unfold identifyCore
    rw [h]
  · intro u hu
    unfold identifyCore
    rw [hu]
    exact ⟨_, rfl⟩
  · intro h
    unfold createUserCore
    rw [h]

theorem identify_create_no_format_validation_witness :
    identifyCore emptyDB "9876543210" refToday 720 = .newUser "9876543210" :=
  (identify_create_no_format_validation emptyDB "9876543210" refToday 720 "Sam" 1).1
    (by decide)

/-- C10: `modify_appointment` has no business-hours gate on the new time:
with one upcoming appointment at 2 PM, rescheduling it to "08:00" succeeds in
place and leaves a scheduled appointment at 8 AM — outside 09:00-17:00 —
while `book_appointment` rejects the very same parsed time (480 minutes) with
the hours message. -/
theorem modify_no_business_hours_gate :
    modifyParseTime "08:00" = some 480 ∧
    bookParseTime "08:00" = some 480 ∧
    timeHour 480 < 9 ∧
    modifyCore dbOneBooking "5551234567" "tomorrow" "08:00" none refToday 720 =
      (.modified 1 739258 840, dbMovedTo8am) ∧
    (∃ a ∈ dbMovedTo8am.appts, a.status = ApptStatus.scheduled ∧ timeHour a.time < 9) ∧
    (bookFull dbOneBooking "5551234567" "tomorrow" "08:00" none refToday 2).1 = .hoursMsg :=
  ⟨by decide, by decide, by decide, by decide, by decide, by decide⟩

/-- C3: when `cancel_appointment` is given no date argument and more than one
upcoming scheduled appointment matches, it returns a disambiguation outcome
listing at most 3 candidate appointments and leaves the store untouched — it
never cancels an appointment whose selection was ambiguous. -/
theorem cancel_disambiguation_no_mutation (db : DB) (phone : String)
    (today : YMD) (now : Nat) (u : UserRow)
    (hu : db.users.find? (fun x => x.phone_number == phone) = some u)
    (hm : 1 < (cancelMatches db u none today now).length) :
    (cancelCore db phone none today now).2 = db ∧
    ∃ cands, (cancelCore db phone none today now).1 = .disambiguate cands ∧
      cands.length ≤ 3 ∧
      cands = ((cancelMatches db u none today now).take 3).map
        (fun a => (a.date, a.time)) := by
  unfold cancelCore
  rw [hu]
  dsimp only
  cases hcm : cancelMatches db u none today now with
  | nil => rw [hcm] at hm; simp at hm
  | cons a0 rest =>
    rw [hcm] at hm
    have hcond : (decide (1 < (a0 :: rest).length) && !(optTruthy none)) = true := by
      simp only [List.length_cons] at hm
      simp [optTruthy, List.length_cons]
      omega
    dsimp only
    rw [if_pos hcond]
    refine ⟨rfl, _, rfl, ?_, rfl⟩
    simp only [List.length_map, List.length_take]
    omega

theorem cancel_disambiguation_no_mutation_witness :
    (cancelCore dbTwoBookings "5551234567" none refToday 720).2 = dbTwoBookings ∧
    ∃ cands,
      (cancelCore dbTwoBookings "5551234567" none refToday 720).1 = .disambiguate cands ∧
      cands.length ≤ 3 ∧
      cands = ((cancelMatches dbTwoBookings samUser none refToday 720).take 3).map
        (fun a => (a.date, a.time)) :=
  cancel_disambiguation_no_mutation dbTwoBookings "5551234567" refToday 720 samUser
    (by decide) (by decide)

theorem insertionSort_singleton_inv {α : Type} {r : α → α → Prop} [DecidableRel r]
    {l : List α} {a : α} (h : List.insertionSort r l = [a]) : l = [a] := by
  have hp := List.perm_insertionSort r l
  rw [h] at hp
  exact List.perm_singleton.mp hp.symm

theorem cancelMatches_none_singleton {db : DB} {u : UserRow} {today : YMD}
    {now : Nat} {a : Appt}
    (hm : cancelMatches db u none today now = [a]) :
    a ∈ db.appts ∧ a.status = ApptStatus.scheduled := by
  unfold cancelMatches at hm
  dsimp only at hm
  have hbase := insertionSort_singleton_inv hm
  have hamem : a ∈ db.appts.filter (fun x =>
      x.user_id == u.id && x.status == ApptStatus.scheduled &&
      upcomingFilter today.toOrdinal now x) := by
    rw [hbase]
    exact List.mem_singleton_self a
  have hsp := List.mem_filter.mp hamem
  refine ⟨hsp.1, ?_⟩
  have hp := hsp.2
  simp only [Bool.and_eq_true, beq_iff_eq] at hp
  exact hp.1.2

theorem slotUniqueOk_cancel_dup {appts : List Appt} {a b : Appt}
    (hamem : a ∈ appts) (hb : b ∈ appts) (hne : b ≠ a)
    (hbs : b.status = ApptStatus.cancelled) (hbd : b.date = a.date)
    (hbt : b.time = a.time) :
    slotUniqueOk (appts.map (fun x =>
      if x.id == a.id then { x with status := ApptStatus.cancelled } else x)) = false := by
  by_contra hOK
  rw [Bool.not_eq_false] at hOK
  have hle := filterTriple_le_one _ hOK a.date a.time ApptStatus.cancelled
  have hpfa : (fun x => x.date == a.date && x.time == a.time &&
      x.status == ApptStatus.cancelled)
      ((fun x => if x.id == a.id then { x with status := ApptStatus.cancelled } else x) a)
        = true := by
    simp
  have hpfb : (fun x => x.date == a.date && x.time == a.time &&
      x.status == ApptStatus.cancelled)
      ((fun x => if x.id == a.id then { x with status := ApptStatus.cancelled } else x) b)
        = true := by
    by_cases hid : (b.id == a.id) = true
    · simp [hid, hbd, hbt]
    · simp only [hid]
      simp [hbd, hbt, hbs]
  obtain ⟨l1, l2, hsplit⟩ := List.append_of_mem hamem
  have hbmem2 : b ∈ l1 ∨ b ∈ l2 := by
    rw [hsplit] at hb
    rcases List.mem_append.mp hb with h | h
    · exact Or.inl h
    · rcases List.mem_cons.mp h with h | h
      · exact absurd h hne
      · exact Or.inr h
  rw [hsplit] at hle
  simp only [List.map_append, List.map_cons, List.filter_append, List.filter_cons,
    hpfa, if_true, List.length_append, List.length_cons] at hle
  have hbpos : 0 <
      ((l1.map (fun x => if x.id == a.id then { x with status := ApptStatus.cancelled }
        else x)).filter (fun x => x.date == a.date && x.time == a.time &&
          x.status == ApptStatus.cancelled)).length ∨ 0 <
      ((l2.map (fun x => if x.id == a.id then { x with status := ApptStatus.cancelled }
        else x)).filter (fun x => x.date == a.date && x.time == a.time &&
          x.status == ApptStatus.cancelled)).length := by
    rcases hbmem2 with h | h
    · left
      have hmem : (fun x => if x.id == a.id then { x with status := ApptStatus.cancelled }
          else x) b ∈ (l1.map (fun x => if x.id == a.id then
            { x with status := ApptStatus.cancelled } else x)).filter
            (fun x => x.date == a.date && x.time == a.time &&
              x.status == ApptStatus.cancelled) :=
        List.mem_filter.mpr ⟨List.mem_map_of_mem _ h, hpfb⟩
      exact List.length_pos.mpr (List.ne_nil_of_mem hmem)
    · right
      have hmem : (fun x => if x.id == a.id then { x with status := ApptStatus.cancelled }
          else x) b ∈ (l2.map (fun x => if x.id == a.id then
            { x with status := ApptStatus.cancelled } else x)).filter
            (fun x => x.date == a.date && x.time == a.time &&
              x.status == ApptStatus.cancelled) :=
        List.mem_filter.mpr ⟨List.mem_map_of_mem _ h, hpfb⟩
      exact List.length_pos.mpr (List.ne_nil_of_mem hmem)
  omega

/-- C9: the `unique_scheduled_slot` constraint covers the full
`(appointment_date, appointment_time, status)` triple for every status value,
not only `scheduled` — a triple selects at most one row — so cancelling the
single matching appointment at a slot where a different appointment was
already cancelled fails at commit (the tool's error outcome) with the store
rolled back instead of succeeding. -/
theorem constraint_covers_every_status (db : DB) (phone : String)
    (today : YMD) (now : Nat) (u : UserRow) (a b : Appt)
    (hu : db.users.find? (fun x => x.phone_number == phone) = some u)
    (hm : cancelMatches db u none today now = [a])
    (hb : b ∈ db.appts) (hbs : b.status = ApptStatus.cancelled)
    (hbd : b.date = a.date) (hbt : b.time = a.time) :
    cancelCore db phone none today now = (.storeError, db) ∧
    (∀ (l : List Appt), slotUniqueOk l = true → ∀ (d t : Nat) (s : ApptStatus),
      (l.filter (fun x => x.date == d && x.time == t && x.status == s)).length ≤ 1) := by
  refine ⟨?_, fun l hl d t s => filterTriple_le_one l hl d t s⟩
  obtain ⟨hamem, hasched⟩ := cancelMatches_none_singleton hm
  have hne : b ≠ a := by
    intro he
    rw [he, hasched] at hbs
    exact ApptStatus.noConfusion hbs
  have hfail := slotUniqueOk_cancel_dup hamem hb hne hbs hbd hbt
  unfold cancelCore
  rw [hu]
  dsimp only
  rw [hm]
  dsimp only
  rw [if_neg (by simp [optTruthy])]
  rw [hfail]
  simp

theorem constraint_covers_every_status_witness :
    cancelCore dbCancelledTwin "5551234567" none refToday 720 =
      (.storeError, dbCancelledTwin) ∧
    (∀ (l : List Appt), slotUniqueOk l = true → ∀ (d t : Nat) (s : ApptStatus),
      (l.filter (fun x => x.date == d && x.time == t && x.status == s)).length ≤ 1) :=
  constraint_covers_every_status dbCancelledTwin "5551234567" refToday 720 samUser
    ⟨1, 1, 739258, 600, ApptStatus.scheduled, none⟩
    ⟨2, 2, 739258, 600, ApptStatus.cancelled, none⟩
    (by decide) (by decide) (by decide) (by decide) (by decide) (by decide)

theorem mem_upcoming_filter {db : DB} {u : UserRow} {today : YMD} {now : Nat}
    {a : Appt}
    (h : a ∈ db.appts.filter (fun x =>
      x.user_id == u.id && x.status == ApptStatus.scheduled &&
      upcomingFilter today.toOrdinal now x)) :
    a ∈ db.appts ∧ a.status = ApptStatus.scheduled := by
  have hsp := List.mem_filter.mp h
  refine ⟨hsp.1, ?_⟩
  have hp := hsp.2
  simp only [Bool.and_eq_true, beq_iff_eq] at hp
  exact hp.1.2

theorem modifyMatches_singleton_mem {db : DB} {u : UserRow} {ods : Option String}
    {today : YMD} {now : Nat} {a : Appt}
    (hm : modifyMatches db u ods today now = [a]) :
    a ∈ db.appts ∧ a.status = ApptStatus.scheduled := by
  unfold modifyMatches at hm
  cases ods with
  | none =>
    dsimp only at hm
    exact mem_upcoming_filter
      (by rw [insertionSort_singleton_inv hm]; exact List.mem_singleton_self a)
  | some s =>
    dsimp only at hm
    cases hfmt : dateFmtYmdDash s.data with
    | none =>
      rw [hfmt] at hm
      dsimp only at hm
      exact mem_upcoming_filter
        (by rw [insertionSort_singleton_inv hm]; exact List.mem_singleton_self a)
    | some ymd =>
      rw [hfmt] at hm
      dsimp only at hm
      have hmem : a ∈ (db.appts.filter (fun x =>
          x.user_id == u.id && x.status == ApptStatus.scheduled &&
          upcomingFilter today.toOrdinal now x)).filter
          (fun x => x.date == ymd.toOrdinal) := by
        rw [insertionSort_singleton_inv hm]
        exact List.mem_singleton_self a
      exact mem_upcoming_filter (List.mem_filter.mp hmem).1

theorem map_eq_self_of_mem {α : Type} {f : α → α} {l : List α}
    (h : ∀ x ∈ l, f x = x) : l.map f = l := by
  induction l with
  | nil => rfl
  | cons x xs ih =>
    rw [List.map_cons, h x (List.mem_cons_self x xs),
      ih (fun y hy => h y (List.mem_cons_of_mem x hy))]

theorem modify_core_success {db : DB} {phone new_date_str new_time_str : String}
    {old_date_str : Option String} {today : YMD} {now : Nat} {u : UserRow} {a : Appt}
    {nd nt : Nat}
    (hu : db.users.find? (fun x => x.phone_number == phone) = some u)
    (hm : modifyMatches db u old_date_str today now = [a])
    (hd : modifyParseDate new_date_str today = some nd)
    (ht : modifyParseTime new_time_str = some nt)
    (hids : (db.appts.map (fun x => x.id)).Nodup)
    (hok : slotUniqueOk db.appts = true)
    (honly : ∀ b ∈ db.appts, b.date = nd → b.time = nt →
      b.status = ApptStatus.scheduled → b.id = a.id) :
    modifyCore db phone new_date_str new_time_str old_date_str today now =
      (.modified a.id a.date a.time,
       { db with appts := db.appts.map (fun x =>
           if x.id == a.id then { x with date := nd, time := nt } else x) }) := by
  obtain ⟨hamem, hasched⟩ := modifyMatches_singleton_mem hm
  have hkey : ∀ x ∈ db.appts, x.id = a.id → x = a := by
    intro x hx hxid
    exact List.inj_on_of_nodup_map hids hx hamem hxid
  unfold modifyCore
  rw [hu]
  dsimp only
  rw [hm]
  dsimp only
  rw [if_neg (by simp)]
  rw [hd]
  dsimp only
  rw [ht]
  dsimp only
  have hex : (db.appts.find? (fun x =>
      x.date == nd && x.time == nt && x.status == ApptStatus.scheduled)).any
      (fun e => e.id != a.id) = false := by
    cases hfe : db.appts.find? (fun x => x.date == nd && x.time == nt &&
        x.status == ApptStatus.scheduled) with
    | none => rfl
    | some e =>
      have hp := List.find?_some hfe
      have hmem := List.mem_of_find?_eq_some hfe
      simp only [Bool.and_eq_true, beq_iff_eq] at hp
      have he := honly e hmem hp.1.1 hp.1.2 hp.2
      simp [Option.any, he]
  rw [hex]
  rw [if_neg (by simp)]
  have hcommit : slotUniqueOk (db.appts.map (fun x =>
      if x.id == a.id then { x with date := nd, time := nt } else x)) = true := by
    rw [slotUniqueOk_iff_pairwise] at hok ⊢
    rw [List.pairwise_map]
    refine hok.imp_of_mem ?_
    intro x y hx hy hR
    by_cases hxid : (x.id == a.id) = true
    · have hxa : x = a := hkey x hx (by simpa using hxid)
      by_cases hyid : (y.id == a.id) = true
      · have hya : y = a := hkey y hy (by simpa using hyid)
        rw [hxa, hya, sameSlotStatus_self a] at hR
        exact absurd hR (by simp)
      · rw [if_pos hxid, if_neg hyid]
        cases hq : sameSlotStatus { x with date := nd, time := nt } y with
        | false => rfl
        | true =>
          exfalso
          unfold sameSlotStatus at hq
          simp only [Bool.and_eq_true, beq_iff_eq] at hq
          have hys : y.status = ApptStatus.scheduled := by
            rw [← hq.2, hxa]; exact hasched
          have hyidA := honly y hy hq.1.1.symm hq.1.2.symm hys
          exact hyid (by simp [hyidA])
    · by_cases hyid : (y.id == a.id) = true
      · have hya : y = a := hkey y hy (by simpa using hyid)
        rw [if_neg hxid, if_pos hyid]
        cases hq : sameSlotStatus x { y with date := nd, time := nt } with
        | false => rfl
        | true =>
          exfalso
          unfold sameSlotStatus at hq
          simp only [Bool.and_eq_true, beq_iff_eq] at hq
          have hxs : x.status = ApptStatus.scheduled := by
            rw [hq.2, hya]; exact hasched
          have hxidA := honly x hx hq.1.1 hq.1.2 hxs
          exact hxid (by simp [hxidA])
      · rw [if_neg hxid, if_neg hyid]
        exact hR
  rw [if_pos hcommit]

/-- C6: on a single upcoming match, `modify_appointment` validates the new
slot while excluding the appointment being moved, and on success it mutates
the matched row's date and time in place, preserving every appointment id
(no cancel-plus-recreate); in particular rescheduling the appointment to its
own current slot is not reported as a conflict and leaves the store
unchanged. -/
theorem modify_in_place_excluding_self (db : DB)
    (phone new_date_str new_time_str : String) (old_date_str : Option String)
    (today : YMD) (now : Nat) (u : UserRow) (a : Appt) (nd nt : Nat)
    (hu : db.users.find? (fun x => x.phone_number == phone) = some u)
    (hm : modifyMatches db u old_date_str today now = [a])
    (hd : modifyParseDate new_date_str today = some nd)
    (ht : modifyParseTime new_time_str = some nt)
    (hids : (db.appts.map (fun x => x.id)).Nodup)
    (hok : slotUniqueOk db.appts = true) :
    ((∀ b ∈ db.appts, b.date = nd → b.time = nt →
        b.status = ApptStatus.scheduled → b.id = a.id) →
      modifyCore db phone new_date_str new_time_str old_date_str today now =
        (.modified a.id a.date a.time,
         { db with appts := db.appts.map (fun x =>
             if x.id == a.id then { x with date := nd, time := nt } else x) })) ∧
    ((db.appts.map (fun x =>
        if x.id == a.id then { x with date := nd, time := nt } else x)).map
        (fun x => x.id) = db.appts.map (fun x => x.id)) ∧
    (nd = a.date → nt = a.time →
      modifyCore db phone new_date_str new_time_str old_date_str today now =
        (.modified a.id a.date a.time, db) ∧
      (modifyCore db phone new_date_str new_time_str old_date_str today now).1 ≠
        .conflictMsg) := by
  obtain ⟨hamem, hasched⟩ := modifyMatches_singleton_mem hm
  have hkey : ∀ x ∈ db.appts, x.id = a.id → x = a := by
    intro x hx hxid
    exact List.inj_on_of_nodup_map hids hx hamem hxid
  refine ⟨fun honly => modify_core_success hu hm hd ht hids hok honly, ?_, ?_⟩
  · rw [List.map_map]
    apply List.map_congr_left
    intro x _
    by_cases h : (x.id == a.id) = true
    · simp [Function.comp, h]
    · simp [Function.comp, h]
  · intro hnd hnt
    subst hnd
    subst hnt
    have honly : ∀ b ∈ db.appts, b.date = a.date → b.time = a.time →
        b.status = ApptStatus.scheduled → b.id = a.id := by
      intro b hbmem hbd hbt hbsch
      by_cases hba : b = a
      · rw [hba]
      · have hsym : Symmetric (fun x y : Appt => sameSlotStatus x y = false) := by
          intro x y hxy
          cases hq : sameSlotStatus y x with
          | false => rfl
          | true => rw [sameSlotStatus_symm hq] at hxy; exact absurd hxy (by simp)
        have hpw := (slotUniqueOk_iff_pairwise _).mp hok
        have hfalse := hpw.forall hsym hbmem hamem hba
        have htrue : sameSlotStatus b a = true := by
          unfold sameSlotStatus
          simp [hbd, hbt, hbsch, hasched]
        rw [htrue] at hfalse
        exact absurd hfalse (by simp)
    have hres := modify_core_success hu hm hd ht hids hok honly
    have hmapid : db.appts.map (fun x =>
        if x.id == a.id then { x with date := a.date, time := a.time } else x) =
        db.appts := by
      apply map_eq_self_of_mem
      intro x hx
      by_cases h : (x.id == a.id) = true
      · rw [if_pos h, hkey x hx (by simpa using h)]
      · rw [if_neg h]
    refine ⟨?_, ?_⟩
    · rw [hres, hmapid]
    · rw [hres]
      simp

theorem modify_in_place_excluding_self_witness :
    modifyCore dbOneBooking "5551234567" "tomorrow" "2 PM" none refToday 720 =
      (.modified 1 739258 840, dbOneBooking) :=
  ((modify_in_place_excluding_self dbOneBooking "5551234567" "tomorrow" "2 PM" none
      refToday 720 samUser apptTomorrow2pm 739258 840 (by decide) (by decide)
      (by decide) (by decide) (by decide) (by decide)).2.2 rfl rfl).1

theorem bookResolved_db_cases (db : DB) (p : String) (d t : Nat)
    (n : Option String) (i : Nat) :
    (bookResolved db p d t n i).2 = db ∨
    slotUniqueOk (bookResolved db p d t n i).2.appts = true := by
  unfold bookResolved bookCommitPhase
  split
  · exact Or.inl rfl
  · split
    · exact Or.inl rfl
    · split
      · exact Or.inl rfl
      · dsimp only
        split
        · rename_i h
          exact Or.inr h
        · exact Or.inl rfl

theorem cancelCore_db_cases (db : DB) (p : String) (ds : Option String)
    (today : YMD) (now : Nat) :
    (cancelCore db p ds today now).2 = db ∨
    slotUniqueOk (cancelCore db p ds today now).2.appts = true := by
  unfold cancelCore
  split
  · exact Or.inl rfl
  · split
    · exact Or.inl rfl
    · split
      · exact Or.inl rfl
      · dsimp only
        split
        · rename_i h
          exact Or.inr h
        · exact Or.inl rfl

theorem modifyCore_db_cases (db : DB) (p nds nts : String) (ods : Option String)
    (today : YMD) (now : Nat) :
    (modifyCore db p nds nts ods today now).2 = db ∨
    slotUniqueOk (modifyCore db p nds nts ods today now).2.appts = true := by
  unfold modifyCore
  split
  · exact Or.inl rfl
  · split
    · exact Or.inl rfl
    · split
      · exact Or.inl rfl
      · split
        · exact Or.inl rfl
        · split
          · exact Or.inl rfl
          · dsimp only
            split
            · exact Or.inl rfl
            · split
              · rename_i h
                exact Or.inr h
              · exact Or.inl rfl

theorem createUserCore_appts (db : DB) (p nm : String) (i : Nat) :
    (createUserCore db p nm i).2.appts = db.appts := by
  unfold createUserCore
  split <;> rfl

theorem bookResolved_success_inversion {db : DB} {p : String} {d t : Nat}
    {n : Option String} {i j : Nat} {db' : DB}
    (h : bookResolved db p d t n i = (.confirmed j, db')) :
    (decide (timeHour t < 9) || decide (17 ≤ timeHour t)) = false ∧
    ∃ uid, db'.appts = db.appts ++ [⟨i, uid, d, t, ApptStatus.scheduled, n⟩] := by
  unfold bookResolved bookCommitPhase at h
  split at h
  · simp at h
  · rename_i hcond
    refine ⟨by simpa using hcond, ?_⟩
    split at h
    · simp at h
    · split at h
      · simp at h
      · rename_i u hu
        dsimp only at h
        split at h
        · rw [Prod.mk.injEq] at h
          exact ⟨u.id, by rw [← h.2]⟩
        · simp at h

/-- C1: at most one `scheduled` appointment exists per (date, time) pair and
every mutating operation preserves this; in particular, after a successful
`book_appointment` for a slot, a second booking attempt for the exact same
slot returns the conflict outcome (with up to 3 alternative slots) and leaves
the store unchanged — no second scheduled row is created. -/
theorem scheduled_slot_uniqueness_invariant (db : DB)
    (hinv : noSchedDup db.appts = true) :
    (∀ p d t n i, noSchedDup (bookResolved db p d t n i).2.appts = true) ∧
    (∀ p ds today now, noSchedDup (cancelCore db p ds today now).2.appts = true) ∧
    (∀ p nds nts ods today now,
      noSchedDup (modifyCore db p nds nts ods today now).2.appts = true) ∧
    (∀ p nm i, (createUserCore db p nm i).2.appts = db.appts) ∧
    (∀ p d t n i j db', bookResolved db p d t n i = (.confirmed j, db') →
      ∀ p2 n2 i2,
        bookResolved db' p2 d t n2 i2 =
          (.conflict ((get_available_slots db'.appts d).take 3), db')) := by
  refine ⟨?_, ?_, ?_, fun p nm i => createUserCore_appts db p nm i, ?_⟩
  · intro p d t n i
    rcases bookResolved_db_cases db p d t n i with h | h
    · rw [h]; exact hinv
    · exact noSchedDup_of_slotUniqueOk h
  · intro p ds today now
    rcases cancelCore_db_cases db p ds today now with h | h
    · rw [h]; exact hinv
    · exact noSchedDup_of_slotUniqueOk h
  · intro p nds nts ods today now
    rcases modifyCore_db_cases db p nds nts ods today now with h | h
    · rw [h]; exact hinv
    · exact noSchedDup_of_slotUniqueOk h
  · intro p d t n i j db' h p2 n2 i2
    obtain ⟨hhours, uid, happts⟩ := bookResolved_success_inversion h
    unfold bookResolved
    rw [hhours]
    rw [if_neg (by simp)]
    cases hfe : db'.appts.find? (fun a =>
        a.date == d && a.time == t && a.status == ApptStatus.scheduled) with
    | none =>
      exfalso
      have hrow : (⟨i, uid, d, t, ApptStatus.scheduled, n⟩ : Appt) ∈ db'.appts := by
        rw [happts]
        exact List.mem_append_right _ (List.mem_singleton_self _)
      have := List.find?_eq_none.mp hfe _ hrow
      simp at this
    | some x => rfl

theorem scheduled_slot_uniqueness_invariant_witness :
    (∀ p d t n i, noSchedDup (bookResolved dbOneBooking p d t n i).2.appts = true) ∧
    (∀ p ds today now,
      noSchedDup (cancelCore dbOneBooking p ds today now).2.appts = true) ∧
    (∀ p nds nts ods today now,
      noSchedDup (modifyCore dbOneBooking p nds nts ods today now).2.appts = true) ∧
    (∀ p nm i, (createUserCore dbOneBooking p nm i).2.appts = dbOneBooking.appts) ∧
    (∀ p d t n i j db', bookResolved dbOneBooking p d t n i = (.confirmed j, db') →
      ∀ p2 n2 i2,
        bookResolved db' p2 d t n2 i2 =
          (.conflict ((get_available_slots db'.appts d).take 3), db')) :=
  scheduled_slot_uniqueness_invariant dbOneBooking (by decide)
